import Mathlib

/-!
Shallow embedding of `src/main.py` of `auto_sync_ftp_client`, an FTP directory
mirroring tool.  The persisted SQLite table `videos` (one row per file id,
`video_id` is the primary key) is modelled as a list of `FileRecord`; SQL
queries with `ORDER BY video_id ASC` are modelled by insertion sort on the id;
the FTP server is modelled by the listing it returns and by a per-file
transfer oracle; the local directory is an association list from id to file
content.
-/

/-- Status enum of `main.py` lines 19-23 (`VideoStatus`). -/
inductive VideoStatus
  | notDownloaded
  | downloaded
  | updated
  | deleted
deriving DecidableEq, Repr

/-- One row of the `videos` table (`main.py` lines 208-214): `video_id` is the
primary key, `video_status` the enum above, `video_remote_size` the last
observed remote size.  The schema allows a NULL size but the code writes a
size in every INSERT/UPDATE, so it is modelled as a plain integer. -/
structure FileRecord where
  video_id : String
  video_status : VideoStatus
  video_remote_size : Int
deriving DecidableEq, Repr

/-- The persisted table: a list of rows.  The primary key keeps ids unique in
every state the program actually builds; theorems carry this as `NodupIds`. -/
abbrev DB := List FileRecord

def dbIds (db : DB) : List String := db.map (fun r => r.video_id)

def NodupIds (db : DB) : Prop := (dbIds db).Nodup

/-- Model of `SELECT * FROM videos WHERE video_id = ?` (first matching row). -/
def dbFind : DB → String → Option FileRecord
  | [], _ => none
  | r :: rest, id => if r.video_id = id then some r else dbFind rest id

/-- Model of `UPDATE videos SET video_status = ? WHERE video_id = ?`. -/
def dbSetStatus (db : DB) (id : String) (st : VideoStatus) : DB :=
  db.map (fun r => if r.video_id = id then { r with video_status := st } else r)

/-- Model of `UPDATE videos SET video_status = ?, video_remote_size = ? WHERE
video_id = ?` (`main.py` lines 42-45). -/
def dbSetStatusSize (db : DB) (id : String) (st : VideoStatus) (s : Int) : DB :=
  db.map (fun r =>
    if r.video_id = id then { r with video_status := st, video_remote_size := s } else r)

/-- Model of `DELETE FROM videos WHERE video_id = ?` (`main.py` line 155). -/
def dbDelete (db : DB) (id : String) : DB :=
  db.filter (fun r => !(r.video_id == id))

/-- Number of rows holding a given id; the primary key makes it at most 1. -/
def countId (db : DB) (id : String) : Nat := (dbIds db).count id

/-- Lexicographic code-point comparison of char lists.  This is the order
SQLite's default BINARY collation gives TEXT primary keys (byte-wise
comparison of the UTF-8 encoding, which coincides with code-point order). -/
def strLe : List Char → List Char → Bool
  | [], _ => true
  | _ :: _, [] => false
  | a :: as, b :: bs =>
    if a.toNat < b.toNat then true
    else if b.toNat < a.toNat then false
    else strLe as bs

/-- Identifier order used by every `ORDER BY video_id ASC` query. -/
def idLe (a b : String) : Prop := strLe a.data b.data = true

/-- Row order of the `ORDER BY video_id ASC` queries. -/
def recLe (a b : FileRecord) : Prop := idLe a.video_id b.video_id

instance (a b : String) : Decidable (idLe a b) :=
  inferInstanceAs (Decidable (strLe a.data b.data = true))

instance : DecidableRel recLe := fun a b =>
  inferInstanceAs (Decidable (idLe a.video_id b.video_id))

instance (db : DB) : Decidable (NodupIds db) := List.nodupDecidable _

/-- Model of `SELECT ... ORDER BY video_id ASC` applied to a row list. -/
def sortById (db : DB) : DB := List.insertionSort recLe db

/-- Row inserted by `scan_remote` for a freshly seen remote file
(`main.py` lines 36-40). -/
def mkNew (p : String × Int) : FileRecord :=
  ⟨p.1, VideoStatus.notDownloaded, p.2⟩

/-- First half of `scan_remote` (`main.py` lines 30-46): for each remote
`(name, size)` pair in listing order, insert a `NOT_DOWNLOADED` row when the
id is unknown, else set the row to `UPDATED` with the new size when the
reported size differs from the stored one; otherwise leave the row alone. -/
def scanRemoteInsertUpdate : List (String × Int) → DB → DB
  | [], db => db
  | p :: rest, db =>
    match dbFind db p.1 with
    | none => scanRemoteInsertUpdate rest (db ++ [mkNew p])
    | some row =>
      if p.2 ≠ row.video_remote_size then
        scanRemoteInsertUpdate rest (dbSetStatusSize db p.1 VideoStatus.updated p.2)
      else
        scanRemoteInsertUpdate rest db

/-- Shared shape of `scan_remote` lines 48-58 and `scan_local` lines 67-82:
iterate over a fetched row list and, for each row whose id is not in `ids`,
set that id's status to `st`. -/
def markRowsAbsent (ids : List String) (st : VideoStatus) :
    List FileRecord → DB → DB
  | [], db => db
  | row :: rest, db =>
    if row.video_id ∈ ids then markRowsAbsent ids st rest db
    else markRowsAbsent ids st rest (dbSetStatus db row.video_id st)

/-- Fetch of the `DOWNLOADED` rows (`main.py` lines 48-51 and 67-71). -/
def downloadedRows (db : DB) : List FileRecord :=
  db.filter (fun r => r.video_status == VideoStatus.downloaded)

/-- Second half of `scan_remote` plus the body of `scan_local`: every
`DOWNLOADED` row whose id is absent from `ids` gets status `st`.  With
`video_id` a primary key, the per-row `UPDATE ... WHERE video_id = ?` of the
source touches exactly the fetched row. -/
def markDownloadedAbsent (ids : List String) (st : VideoStatus) (db : DB) : DB :=
  markRowsAbsent ids st (downloadedRows db) db

/-- Whole of `scan_remote` on its success path (`main.py` lines 26-58). -/
def scan_remote_ok (remote : List (String × Int)) (db : DB) : DB :=
  markDownloadedAbsent (remote.map Prod.fst) VideoStatus.deleted
    (scanRemoteInsertUpdate remote db)

/-- Whole of `scan_local` on its success path (`main.py` lines 64-85):
`localIds` is the list of basenames produced from `get_local_paths()`. -/
def scan_local (localIds : List String) (db : DB) : DB :=
  markDownloadedAbsent localIds VideoStatus.notDownloaded db

/-- Planned operations as printed by `preview_changes`. -/
inductive ActionKind
  | download
  | update
  | delete
deriving DecidableEq, Repr

/-- Row classification of `preview_changes` (`main.py` lines 115-123). -/
def rowAction (r : FileRecord) : Option ActionKind :=
  if r.video_status = VideoStatus.notDownloaded then some ActionKind.download
  else if r.video_status = VideoStatus.deleted then some ActionKind.delete
  else if r.video_status = VideoStatus.updated then some ActionKind.update
  else none

/-- Planned-action table built by `preview_changes` (`main.py` lines 102-123):
rows are read in `video_id` ascending order and each `NOT_DOWNLOADED`,
`DELETED` or `UPDATED` row contributes one `[Action, Video ID]` entry. -/
def preview_changes (db : DB) : List (ActionKind × String) :=
  (sortById db).filterMap (fun r => (rowAction r).map (fun a => (a, r.video_id)))

/-- Result of one attempted file transfer in `mirror_ftp_directory`: either
`retrbinary` delivers the listed blocks to the callback and returns, or
`open(local_path, "wb")` raises `OSError` before the file is truncated, or
the transfer fails after the local file has been opened (connection drop,
stream error).  All of these exceptions are caught by the
`except ftplib.all_errors` at line 193 (`all_errors` includes `OSError`). -/
inductive TransferResult
  | ok (blocks : List String)
  | failAtOpen
  | failDuringTransfer
deriving DecidableEq, Repr

def TransferResult.isOk : TransferResult → Bool
  | .ok _ => true
  | _ => false

/-- Local directory contents: id ↦ file content. -/
abbrev FS := List (String × String)

def fsFind : FS → String → Option String
  | [], _ => none
  | p :: rest, id => if p.1 = id then some p.2 else fsFind rest id

/-- Model of `os.remove` on the mapped path (`main.py` line 153). -/
def fsRemove (fs : FS) (id : String) : FS := fs.filter (fun p => !(p.1 == id))

/-- Model of setting a file's content (create or overwrite). -/
def fsWrite : FS → String → String → FS
  | [], id, c => [(id, c)]
  | p :: rest, id, c => if p.1 = id then (id, c) :: rest else p :: fsWrite rest id c

/-- Observable I/O events of `mirror_ftp_directory`, in execution order. -/
inductive Event
  | deletedLocal (id : String)
  | transferStarted (id : String)
  | progress (id : String) (chunkLen : Nat) (totalBytes : Nat)
  | transferDone (id : String)
deriving DecidableEq, Repr

def Event.isDeletion : Event → Bool
  | .deletedLocal _ => true
  | _ => false

/-- State threaded through the Mirror Executor: persisted table, local files,
and the events emitted so far. -/
structure ExecState where
  db : DB
  fs : FS
  events : List Event
deriving Repr

/-- First loop of `mirror_ftp_directory` (`main.py` lines 149-159): for every
fetched row with status `DELETED`, try `os.remove`; on success remove the
local file and delete the row (committed at once); on `OSError` log and
continue, leaving the row untouched.  `deleteOk id` abstracts whether
`os.remove` succeeds for that path. -/
def deletePhase (deleteOk : String → Bool) :
    List FileRecord → DB → FS → ExecState
  | [], db, fs => ⟨db, fs, []⟩
  | row :: rest, db, fs =>
    if row.video_status = VideoStatus.deleted then
      if deleteOk row.video_id then
        let r := deletePhase deleteOk rest (dbDelete db row.video_id)
          (fsRemove fs row.video_id)
        { r with events := Event.deletedLocal row.video_id :: r.events }
      else
        deletePhase deleteOk rest db fs
    else
      deletePhase deleteOk rest db fs

/-- Progress notifications produced by `callback` (`main.py` lines 161-168)
for one file: `total_bytes` starts at 0 (line 179) and each delivered block
adds its length before the running total is printed.  The callback only
updates this counter and writes the progress line; it never writes the block
to `local_file`. -/
def progressEvents (id : String) : List String → Nat → List Event
  | [], _ => []
  | b :: rest, total =>
    Event.progress id b.length (total + b.length) ::
      progressEvents id rest (total + b.length)

/-- Second loop of `mirror_ftp_directory` (`main.py` lines 171-194): for every
fetched row with status `NOT_DOWNLOADED` or `UPDATED`, `open(local_path,
"wb")` truncates (or creates) the local file to empty content, then
`retrbinary` streams the remote blocks to `callback`.  Because the callback
never writes a block, the local content stays empty whatever the stream held.
On success the row's status is set to `DOWNLOADED` and committed; on an
`ftplib.all_errors` exception (which includes `OSError` from `open`) the row
is left untouched and the loop continues with the next row. -/
def transferPhase (transfer : String → TransferResult) :
    List FileRecord → DB → FS → ExecState
  | [], db, fs => ⟨db, fs, []⟩
  | row :: rest, db, fs =>
    if row.video_status = VideoStatus.notDownloaded ∨
        row.video_status = VideoStatus.updated then
      match transfer row.video_id with
      | .failAtOpen => transferPhase transfer rest db fs
      | .failDuringTransfer =>
        let r := transferPhase transfer rest db (fsWrite fs row.video_id "")
        { r with events := Event.transferStarted row.video_id :: r.events }
      | .ok blocks =>
        let r := transferPhase transfer rest
          (dbSetStatus db row.video_id VideoStatus.downloaded)
          (fsWrite fs row.video_id "")
        { r with events := Event.transferStarted row.video_id ::
            (progressEvents row.video_id blocks 0 ++
              Event.transferDone row.video_id :: r.events) }
    else
      transferPhase transfer rest db fs

/-- WHERE clause of the row fetch at `main.py` lines 141-144. -/
def isPending (r : FileRecord) : Bool :=
  r.video_status == VideoStatus.notDownloaded ||
    r.video_status == VideoStatus.deleted ||
      r.video_status == VideoStatus.updated

/-- `mirror_ftp_directory` (`main.py` lines 140-194): fetch the pending rows
in id order once, run the delete loop over them, then the download/update
loop over the same fetched list. -/
def mirror_ftp_directory (deleteOk : String → Bool)
    (transfer : String → TransferResult) (db : DB) (fs : FS) : ExecState :=
  let rows := sortById (db.filter isPending)
  let d := deletePhase deleteOk rows db fs
  let t := transferPhase transfer rows d.db d.fs
  ⟨t.db, t.fs, d.events ++ t.events⟩

/-- One reconciliation pass on its success path (`main.py` lines 271-272):
`scan_remote` then `scan_local`. -/
def reconcile (remote : List (String × Int)) (localIds : List String)
    (db : DB) : DB :=
  scan_local localIds (scan_remote_ok remote db)

/-- Action list the pass hands to `preview_changes` (`main.py` line 273). -/
def pass_actions (remote : List (String × Int)) (localIds : List String)
    (db : DB) : List (ActionKind × String) :=
  preview_changes (reconcile remote localIds db)

/-- A full reconcile-and-mirror pass (`main.py` lines 271-280). -/
def full_mirror_pass (remote : List (String × Int)) (localIds : List String)
    (deleteOk : String → Bool) (transfer : String → TransferResult)
    (db : DB) (fs : FS) : ExecState :=
  mirror_ftp_directory deleteOk transfer (reconcile remote localIds db) fs

/-- Outcome of running the two scans (`main.py` lines 271-272) when either
listing can fail.  `exitProcess` models `sys.exit(1)` at lines 61 and 85: the
process terminates; the carried `DB` is the state left durable.  `scan_remote`
commits only at lines 46 and 58, after all its FTP calls succeeded, and
statements pending in the open transaction are rolled back when the
connection is closed at line 291, so a remote-listing failure leaves the
persisted table exactly as it was; a local-scan failure exits after the
remote reconciliation has already been committed. -/
inductive PassResult
  | ok (db : DB)
  | exitProcess (db : DB)
deriving DecidableEq, Repr

def reconcile_pass (remoteListing : Except Unit (List (String × Int)))
    (localListing : Except Unit (List String)) (db : DB) : PassResult :=
  match remoteListing with
  | .error _ => PassResult.exitProcess db
  | .ok remote =>
    match localListing with
    | .error _ => PassResult.exitProcess (scan_remote_ok remote db)
    | .ok localIds => PassResult.ok (reconcile remote localIds db)

/-- What the outer loop (`main.py` lines 259-292) does after one pass: after
a successful pass it sleeps `INTERVAL_TIME` and re-runs (line 292) unless
`PREVIEW_MODE` breaks out of the loop (lines 281-282); `sys.exit(1)` raises
`SystemExit`, which no handler inside the loop catches, so the process
terminates without any retry. -/
inductive LoopDecision
  | sleepAndRepeat
  | terminate
deriving DecidableEq, Repr

def outer_loop_reaction (r : PassResult) (previewMode : Bool) : LoopDecision :=
  match r with
  | PassResult.ok _ =>
    if previewMode then LoopDecision.terminate else LoopDecision.sleepAndRepeat
  | PassResult.exitProcess _ => LoopDecision.terminate

/-! ### Basic lemmas about the table model -/

@[simp] theorem dbIds_nil : dbIds [] = [] := rfl

@[simp] theorem dbIds_cons (r : FileRecord) (rest : DB) :
    dbIds (r :: rest) = r.video_id :: dbIds rest := rfl

@[simp] theorem dbIds_append (l₁ l₂ : DB) :
    dbIds (l₁ ++ l₂) = dbIds l₁ ++ dbIds l₂ := List.map_append _ _ _

theorem mem_dbIds {db : DB} {id : String} :
    id ∈ dbIds db ↔ ∃ r ∈ db, r.video_id = id := by
  simp [dbIds]

theorem nodupIds_cons {r : FileRecord} {rest : DB} :
    NodupIds (r :: rest) ↔ r.video_id ∉ dbIds rest ∧ NodupIds rest := by
  simp [NodupIds]

theorem dbFind_eq_none_iff (db : DB) (id : String) :
    dbFind db id = none ↔ id ∉ dbIds db := by
  induction db with
  | nil => simp [dbFind]
  | cons r rest ih =>
    by_cases h : r.video_id = id
    · simp [dbFind, h]
    · simp [dbFind, h, ih, Ne.symm h]

theorem dbFind_mem {db : DB} {id : String} {r : FileRecord}
    (h : dbFind db id = some r) : r ∈ db ∧ r.video_id = id := by
  induction db with
  | nil => simp [dbFind] at h
  | cons q rest ih =>
    by_cases hq : q.video_id = id
    · simp [dbFind, hq] at h
      subst h
      exact ⟨List.mem_cons_self _ _, hq⟩
    · simp [dbFind, hq] at h
      obtain ⟨hm, hid⟩ := ih h
      exact ⟨List.mem_cons_of_mem _ hm, hid⟩

theorem dbFind_of_mem_nodup {db : DB} {r : FileRecord}
    (hn : NodupIds db) (hm : r ∈ db) : dbFind db r.video_id = some r := by
  induction db with
  | nil => simp at hm
  | cons q rest ih =>
    rcases nodupIds_cons.mp hn with ⟨hq, hn'⟩
    rcases List.mem_cons.mp hm with rfl | hm'
    · simp [dbFind]
    · have hne : q.video_id ≠ r.video_id := by
        intro he
        exact hq (he ▸ mem_dbIds.mpr ⟨r, hm', rfl⟩)
      simp [dbFind, hne, ih hn' hm']

theorem unique_of_find {db : DB} {id : String} {r r' : FileRecord}
    (hn : NodupIds db) (h : dbFind db id = some r) (hm : r' ∈ db)
    (hid : r'.video_id = id) : r' = r := by
  have hf := dbFind_of_mem_nodup hn hm
  rw [hid, h] at hf
  exact ((Option.some.injEq _ _).mp hf).symm

theorem dbFind_append (l₁ l₂ : DB) (id : String) :
    dbFind (l₁ ++ l₂) id = (dbFind l₁ id).orElse (fun _ => dbFind l₂ id) := by
  induction l₁ with
  | nil => simp [dbFind]
  | cons r rest ih =>
    by_cases h : r.video_id = id
    · simp [dbFind, h]
    · simp [dbFind, h, ih]

@[simp] theorem dbSetStatus_nil (id : String) (st : VideoStatus) :
    dbSetStatus [] id st = [] := rfl

theorem dbSetStatus_cons (r : FileRecord) (rest : DB) (id : String)
    (st : VideoStatus) :
    dbSetStatus (r :: rest) id st =
      (if r.video_id = id then { r with video_status := st } else r) ::
        dbSetStatus rest id st := rfl

@[simp] theorem dbSetStatusSize_nil (id : String) (st : VideoStatus) (s : Int) :
    dbSetStatusSize [] id st s = [] := rfl

theorem dbSetStatusSize_cons (r : FileRecord) (rest : DB) (id : String)
    (st : VideoStatus) (s : Int) :
    dbSetStatusSize (r :: rest) id st s =
      (if r.video_id = id then
        { r with video_status := st, video_remote_size := s } else r) ::
          dbSetStatusSize rest id st s := rfl

@[simp] theorem dbDelete_nil (id : String) : dbDelete [] id = [] := rfl

theorem dbDelete_cons_self {r : FileRecord} {rest : DB} {id : String}
    (h : r.video_id = id) : dbDelete (r :: rest) id = dbDelete rest id := by
  simp [dbDelete, List.filter_cons, h]

theorem dbDelete_cons_ne {r : FileRecord} {rest : DB} {id : String}
    (h : ¬ r.video_id = id) : dbDelete (r :: rest) id = r :: dbDelete rest id := by
  simp [dbDelete, List.filter_cons, h]

theorem dbFind_setStatus_self (db : DB) (id : String) (st : VideoStatus) :
    dbFind (dbSetStatus db id st) id =
      (dbFind db id).map (fun r => { r with video_status := st }) := by
  induction db with
  | nil => simp [dbFind]
  | cons r rest ih =>
    by_cases h : r.video_id = id
    · simp [dbFind, dbSetStatus_cons, h]
    · simp [dbFind, dbSetStatus_cons, h]
      exact ih

@[simp] theorem video_id_set_status (r : FileRecord) (st : VideoStatus) :
    ({ r with video_status := st } : FileRecord).video_id = r.video_id := rfl

@[simp] theorem video_id_set_status_size (r : FileRecord) (st : VideoStatus)
    (s : Int) :
    ({ r with video_status := st, video_remote_size := s } :
      FileRecord).video_id = r.video_id := rfl

@[simp] theorem dbFind_cons (r : FileRecord) (rest : DB) (id : String) :
    dbFind (r :: rest) id =
      if r.video_id = id then some r else dbFind rest id := rfl

theorem dbFind_setStatus_ne (db : DB) {id' id : String} (st : VideoStatus)
    (h : id' ≠ id) : dbFind (dbSetStatus db id' st) id = dbFind db id := by
  induction db with
  | nil => rfl
  | cons r rest ih =>
    by_cases hr' : r.video_id = id'
    · have hrid : ¬ r.video_id = id := by rw [hr']; exact h
      rw [dbSetStatus_cons, if_pos hr']
      simp only [dbFind_cons, video_id_set_status, if_neg hrid]
      exact ih
    · rw [dbSetStatus_cons, if_neg hr']
      simp only [dbFind_cons]
      by_cases hr : r.video_id = id
      · rw [if_pos hr, if_pos hr]
      · rw [if_neg hr, if_neg hr]
        exact ih

theorem dbFind_setStatusSize_self (db : DB) (id : String) (st : VideoStatus)
    (s : Int) :
    dbFind (dbSetStatusSize db id st s) id =
      (dbFind db id).map
        (fun r => { r with video_status := st, video_remote_size := s }) := by
  induction db with
  | nil => simp [dbFind]
  | cons r rest ih =>
    by_cases h : r.video_id = id
    · simp [dbFind, dbSetStatusSize_cons, h]
    · simp [dbFind, dbSetStatusSize_cons, h]
      exact ih

theorem dbFind_setStatusSize_ne (db : DB) {id' id : String} (st : VideoStatus)
    (s : Int) (h : id' ≠ id) :
    dbFind (dbSetStatusSize db id' st s) id = dbFind db id := by
  induction db with
  | nil => rfl
  | cons r rest ih =>
    by_cases hr' : r.video_id = id'
    · have hrid : ¬ r.video_id = id := by rw [hr']; exact h
      rw [dbSetStatusSize_cons, if_pos hr']
      simp only [dbFind_cons, video_id_set_status_size, if_neg hrid]
      exact ih
    · rw [dbSetStatusSize_cons, if_neg hr']
      simp only [dbFind_cons]
      by_cases hr : r.video_id = id
      · rw [if_pos hr, if_pos hr]
      · rw [if_neg hr, if_neg hr]
        exact ih

theorem dbFind_delete_ne (db : DB) {id' id : String} (h : id' ≠ id) :
    dbFind (dbDelete db id') id = dbFind db id := by
  induction db with
  | nil => simp
  | cons r rest ih =>
    by_cases hr' : r.video_id = id'
    · have hr : ¬ r.video_id = id := by simp [hr', h]
      rw [dbDelete_cons_self hr']
      simp [dbFind, hr, ih]
    · rw [dbDelete_cons_ne hr']
      by_cases hr : r.video_id = id
      · simp [dbFind, hr]
      · simp [dbFind, hr, ih]

@[simp] theorem dbIds_setStatus (db : DB) (id : String) (st : VideoStatus) :
    dbIds (dbSetStatus db id st) = dbIds db := by
  induction db with
  | nil => rfl
  | cons r rest ih =>
    by_cases h : r.video_id = id <;> simp [dbSetStatus_cons, h, ih]

@[simp] theorem dbIds_setStatusSize (db : DB) (id : String) (st : VideoStatus)
    (s : Int) : dbIds (dbSetStatusSize db id st s) = dbIds db := by
  induction db with
  | nil => rfl
  | cons r rest ih =>
    by_cases h : r.video_id = id <;> simp [dbSetStatusSize_cons, h, ih]

theorem fsFind_write_self (fs : FS) (id : String) (c : String) :
    fsFind (fsWrite fs id c) id = some c := by
  induction fs with
  | nil => simp [fsFind, fsWrite]
  | cons p rest ih =>
    by_cases h : p.1 = id
    · simp [fsFind, fsWrite, h]
    · simp [fsFind, fsWrite, h, ih]

theorem fsFind_write_ne (fs : FS) {id' id : String} (c : String)
    (h : id' ≠ id) : fsFind (fsWrite fs id' c) id = fsFind fs id := by
  induction fs with
  | nil => simp [fsFind, fsWrite, h]
  | cons p rest ih =>
    by_cases hp : p.1 = id'
    · have hq : ¬ p.1 = id := by simp [hp, h]
      simp [fsFind, fsWrite, hp, hq, h]
    · by_cases hq : p.1 = id
      · simp [fsFind, fsWrite, hp, hq, Ne.symm h]
      · simp [fsFind, fsWrite, hp, hq, ih]

@[simp] theorem fsFind_cons (p : String × String) (rest : FS) (id : String) :
    fsFind (p :: rest) id = if p.1 = id then some p.2 else fsFind rest id := rfl

theorem fsRemove_cons_self {p : String × String} {rest : FS} {id : String}
    (h : p.1 = id) : fsRemove (p :: rest) id = fsRemove rest id := by
  simp [fsRemove, List.filter_cons, h]

theorem fsRemove_cons_ne {p : String × String} {rest : FS} {id : String}
    (h : ¬ p.1 = id) : fsRemove (p :: rest) id = p :: fsRemove rest id := by
  simp [fsRemove, List.filter_cons, h]

theorem fsFind_remove_ne (fs : FS) {id' id : String} (h : id' ≠ id) :
    fsFind (fsRemove fs id') id = fsFind fs id := by
  induction fs with
  | nil => rfl
  | cons p rest ih =>
    by_cases hp' : p.1 = id'
    · have hp : ¬ p.1 = id := by rw [hp']; exact h
      rw [fsRemove_cons_self hp']
      simp only [fsFind_cons, if_neg hp]
      exact ih
    · rw [fsRemove_cons_ne hp']
      simp only [fsFind_cons]
      by_cases hp : p.1 = id
      · rw [if_pos hp, if_pos hp]
      · rw [if_neg hp, if_neg hp]
        exact ih

/-! ### Lemmas about the two scans -/

@[simp] theorem mkNew_id (p : String × Int) : (mkNew p).video_id = p.1 := rfl

theorem nodup_concat_id {db : DB} {r : FileRecord} (hn : NodupIds db)
    (h : r.video_id ∉ dbIds db) : NodupIds (db ++ [r]) := by
  unfold NodupIds
  rw [dbIds_append]
  exact List.nodup_append.mpr
    ⟨hn, List.nodup_singleton _, fun a ha hb => by
      simp at hb
      exact h (hb ▸ ha)⟩

theorem siu_find_of_not_key (remote : List (String × Int)) (db : DB)
    {id : String} (h : id ∉ remote.map Prod.fst) :
    dbFind (scanRemoteInsertUpdate remote db) id = dbFind db id := by
  induction remote generalizing db with
  | nil => rfl
  | cons p rest ih =>
    have hp : p.1 ≠ id := by
      intro he
      exact h (by simp [he])
    have hrest : id ∉ rest.map Prod.fst := by
      intro he
      exact h (by simp [he])
    cases hf : dbFind db p.1 with
    | none =>
      simp only [scanRemoteInsertUpdate, hf]
      rw [ih _ hrest, dbFind_append]
      cases hdb : dbFind db id with
      | none => simp [dbFind, hp]
      | some r => simp
    | some row =>
      simp only [scanRemoteInsertUpdate, hf]
      by_cases hs : p.2 ≠ row.video_remote_size
      · rw [if_pos hs, ih _ hrest, dbFind_setStatusSize_ne _ _ _ hp]
      · rw [if_neg hs, ih _ hrest]

theorem siu_nodup (remote : List (String × Int)) (db : DB)
    (hn : NodupIds db) : NodupIds (scanRemoteInsertUpdate remote db) := by
  induction remote generalizing db with
  | nil => exact hn
  | cons p rest ih =>
    cases hf : dbFind db p.1 with
    | none =>
      simp only [scanRemoteInsertUpdate, hf]
      have hnm : p.1 ∉ dbIds db := (dbFind_eq_none_iff db p.1).mp hf
      exact ih _ (nodup_concat_id hn (by simpa using hnm))
    | some row =>
      simp only [scanRemoteInsertUpdate, hf]
      by_cases hs : p.2 ≠ row.video_remote_size
      · rw [if_pos hs]
        refine ih _ ?_
        unfold NodupIds
        rw [dbIds_setStatusSize]
        exact hn
      · rw [if_neg hs]
        exact ih _ hn

theorem keys_nodup_cons {p : String × Int} {rest : List (String × Int)}
    (h : ((p :: rest).map Prod.fst).Nodup) :
    p.1 ∉ rest.map Prod.fst ∧ (rest.map Prod.fst).Nodup := by
  simpa using h

theorem siu_find_same (remote : List (String × Int)) (db : DB) {id : String}
    {s : Int} {r : FileRecord} (hk : (remote.map Prod.fst).Nodup)
    (hm : (id, s) ∈ remote) (hf : dbFind db id = some r)
    (hs : r.video_remote_size = s) :
    dbFind (scanRemoteInsertUpdate remote db) id = some r := by
  induction remote generalizing db with
  | nil => simp at hm
  | cons p rest ih =>
    obtain ⟨hknm, hkrest⟩ := keys_nodup_cons hk
    by_cases hp : p.1 = id
    · have hpr : p = (id, s) := by
        rcases List.mem_cons.mp hm with he | hmr
        · exact he.symm
        · exact absurd (hp ▸ (List.mem_map.mpr ⟨(id, s), hmr, rfl⟩)) hknm
      have hnk : id ∉ rest.map Prod.fst := hp ▸ hknm
      have hf' : dbFind db p.1 = some r := by rw [hp]; exact hf
      simp only [scanRemoteInsertUpdate, hf']
      have hcond : ¬ p.2 ≠ r.video_remote_size := by
        rw [hpr, hs]
        simp
      rw [if_neg hcond]
      rw [siu_find_of_not_key rest db hnk]
      exact hf
    · have hmr : (id, s) ∈ rest := by
        rcases List.mem_cons.mp hm with he | hmr
        · exact absurd (by rw [← he]) hp
        · exact hmr
      cases hfp : dbFind db p.1 with
      | none =>
        simp only [scanRemoteInsertUpdate, hfp]
        refine ih _ hkrest hmr ?_
        rw [dbFind_append, hf]
        rfl
      | some row =>
        simp only [scanRemoteInsertUpdate, hfp]
        by_cases hsz : p.2 ≠ row.video_remote_size
        · rw [if_pos hsz]
          refine ih _ hkrest hmr ?_
          rw [dbFind_setStatusSize_ne _ _ _ hp, hf]
        · rw [if_neg hsz]
          exact ih _ hkrest hmr hf

theorem siu_find_diff (remote : List (String × Int)) (db : DB) {id : String}
    {s : Int} {r : FileRecord} (hk : (remote.map Prod.fst).Nodup)
    (hm : (id, s) ∈ remote) (hf : dbFind db id = some r)
    (hs : s ≠ r.video_remote_size) :
    dbFind (scanRemoteInsertUpdate remote db) id =
      some { r with video_status := VideoStatus.updated, video_remote_size := s } := by
  induction remote generalizing db with
  | nil => simp at hm
  | cons p rest ih =>
    obtain ⟨hknm, hkrest⟩ := keys_nodup_cons hk
    by_cases hp : p.1 = id
    · have hpr : p = (id, s) := by
        rcases List.mem_cons.mp hm with he | hmr
        · exact he.symm
        · exact absurd (hp ▸ (List.mem_map.mpr ⟨(id, s), hmr, rfl⟩)) hknm
      have hnk : id ∉ rest.map Prod.fst := hp ▸ hknm
      have hf' : dbFind db p.1 = some r := by rw [hp]; exact hf
      simp only [scanRemoteInsertUpdate, hf']
      have hcond : p.2 ≠ r.video_remote_size := by rw [hpr]; exact hs
      rw [if_pos hcond, siu_find_of_not_key rest _ (hp ▸ hnk),
        hp, dbFind_setStatusSize_self, hf, hpr]
      rfl
    · have hmr : (id, s) ∈ rest := by
        rcases List.mem_cons.mp hm with he | hmr
        · exact absurd (by rw [← he]) hp
        · exact hmr
      cases hfp : dbFind db p.1 with
      | none =>
        simp only [scanRemoteInsertUpdate, hfp]
        refine ih _ hkrest hmr ?_
        rw [dbFind_append, hf]
        rfl
      | some row =>
        simp only [scanRemoteInsertUpdate, hfp]
        by_cases hsz : p.2 ≠ row.video_remote_size
        · rw [if_pos hsz]
          refine ih _ hkrest hmr ?_
          rw [dbFind_setStatusSize_ne _ _ _ hp, hf]
        · rw [if_neg hsz]
          exact ih _ hkrest hmr hf

theorem siu_no_op (remote : List (String × Int)) (db : DB)
    (h : ∀ p ∈ remote, ∃ r, dbFind db p.1 = some r ∧ r.video_remote_size = p.2) :
    scanRemoteInsertUpdate remote db = db := by
  induction remote with
  | nil => rfl
  | cons p rest ih =>
    obtain ⟨r, hf, hs⟩ := h p (List.mem_cons_self _ _)
    simp only [scanRemoteInsertUpdate, hf]
    have hcond : ¬ p.2 ≠ r.video_remote_size := by rw [hs]; simp
    rw [if_neg hcond]
    exact ih (fun q hq => h q (List.mem_cons_of_mem _ hq))

theorem siu_from_fresh (remote : List (String × Int)) (db : DB)
    (h : ∀ p ∈ remote, dbFind db p.1 = none)
    (hk : (remote.map Prod.fst).Nodup) :
    scanRemoteInsertUpdate remote db = db ++ remote.map mkNew := by
  induction remote generalizing db with
  | nil => simp [scanRemoteInsertUpdate]
  | cons p rest ih =>
    obtain ⟨hknm, hkrest⟩ := keys_nodup_cons hk
    have hf := h p (List.mem_cons_self _ _)
    simp only [scanRemoteInsertUpdate, hf]
    rw [ih (db ++ [mkNew p]) ?_ hkrest]
    · simp
    · intro q hq
      rw [dbFind_append, h q (List.mem_cons_of_mem _ hq)]
      have hqm : q.1 ∈ rest.map Prod.fst := List.mem_map.mpr ⟨q, hq, rfl⟩
      have hne : p.1 ≠ q.1 := fun he => hknm (he ▸ hqm)
      simp [dbFind, hne]

theorem mra_find_of_no_row (ids : List String) (st : VideoStatus)
    (rows : List FileRecord) (db : DB) {id : String}
    (h : ∀ row ∈ rows, row.video_id ≠ id) :
    dbFind (markRowsAbsent ids st rows db) id = dbFind db id := by
  induction rows generalizing db with
  | nil => rfl
  | cons row rest ih =>
    have hne := h row (List.mem_cons_self _ _)
    have hrest := fun q hq => h q (List.mem_cons_of_mem _ hq)
    by_cases hm : row.video_id ∈ ids
    · simp only [markRowsAbsent, if_pos hm]
      exact ih _ hrest
    · simp only [markRowsAbsent, if_neg hm]
      rw [ih _ hrest, dbFind_setStatus_ne _ _ hne]

theorem mra_find_of_row (ids : List String) (st : VideoStatus)
    (rows : List FileRecord) (db : DB) {row : FileRecord}
    (hn : (rows.map (fun r => r.video_id)).Nodup) (hm : row ∈ rows) :
    dbFind (markRowsAbsent ids st rows db) row.video_id =
      if row.video_id ∈ ids then dbFind db row.video_id
      else (dbFind db row.video_id).map
        (fun r => { r with video_status := st }) := by
  induction rows generalizing db with
  | nil => simp at hm
  | cons q rest ih =>
    have hqn : q.video_id ∉ rest.map (fun r => r.video_id) :=
      (List.nodup_cons.mp hn).1
    have hrestn : (rest.map (fun r => r.video_id)).Nodup :=
      (List.nodup_cons.mp hn).2
    rcases List.mem_cons.mp hm with rfl | hmr
    · have hnorow : ∀ q ∈ rest, q.video_id ≠ row.video_id := by
        intro q hq he
        exact hqn (he ▸ List.mem_map.mpr ⟨q, hq, rfl⟩)
      by_cases hin : row.video_id ∈ ids
      · simp only [markRowsAbsent, if_pos hin]
        rw [mra_find_of_no_row _ _ _ _ hnorow]
      · simp only [markRowsAbsent, if_neg hin]
        rw [mra_find_of_no_row _ _ _ _ hnorow, dbFind_setStatus_self]
    · have hne : q.video_id ≠ row.video_id := by
        intro he
        exact hqn (he ▸ List.mem_map.mpr ⟨row, hmr, rfl⟩)
      by_cases hin : q.video_id ∈ ids
      · simp only [markRowsAbsent, if_pos hin]
        exact ih _ hrestn hmr
      · simp only [markRowsAbsent, if_neg hin]
        rw [ih _ hrestn hmr, dbFind_setStatus_ne _ _ hne]

@[simp] theorem dbIds_mra (ids : List String) (st : VideoStatus)
    (rows : List FileRecord) (db : DB) :
    dbIds (markRowsAbsent ids st rows db) = dbIds db := by
  induction rows generalizing db with
  | nil => rfl
  | cons q rest ih =>
    by_cases hin : q.video_id ∈ ids
    · simp only [markRowsAbsent, if_pos hin]
      exact ih _
    · simp only [markRowsAbsent, if_neg hin]
      rw [ih _, dbIds_setStatus]

theorem mra_no_op (ids : List String) (st : VideoStatus)
    (rows : List FileRecord) (db : DB)
    (h : ∀ row ∈ rows, row.video_id ∈ ids) :
    markRowsAbsent ids st rows db = db := by
  induction rows with
  | nil => rfl
  | cons q rest ih =>
    simp only [markRowsAbsent, if_pos (h q (List.mem_cons_self _ _))]
    exact ih (fun r hr => h r (List.mem_cons_of_mem _ hr))

theorem mem_downloadedRows {db : DB} {row : FileRecord} :
    row ∈ downloadedRows db ↔
      row ∈ db ∧ row.video_status = VideoStatus.downloaded := by
  simp [downloadedRows, List.mem_filter]

theorem nodupIds_filter (db : DB) (p : FileRecord → Bool)
    (hn : NodupIds db) : ((db.filter p).map (fun r => r.video_id)).Nodup :=
  hn.sublist ((List.filter_sublist db).map _)

theorem nodupIds_downloadedRows {db : DB} (hn : NodupIds db) :
    ((downloadedRows db).map (fun r => r.video_id)).Nodup :=
  nodupIds_filter db _ hn

theorem mda_find_not_downloaded (ids : List String) (st : VideoStatus)
    {db : DB} {id : String} {r : FileRecord} (hn : NodupIds db)
    (hf : dbFind db id = some r)
    (hr : r.video_status ≠ VideoStatus.downloaded) :
    dbFind (markDownloadedAbsent ids st db) id = some r := by
  unfold markDownloadedAbsent
  rw [mra_find_of_no_row _ _ _ _ ?_, hf]
  intro row hrow he
  have hrmem := mem_downloadedRows.mp hrow
  have := unique_of_find hn hf hrmem.1 he
  rw [this] at hrmem
  exact hr hrmem.2

theorem mda_find_downloaded (ids : List String) (st : VideoStatus)
    {db : DB} {id : String} {r : FileRecord} (hn : NodupIds db)
    (hf : dbFind db id = some r)
    (hr : r.video_status = VideoStatus.downloaded) :
    dbFind (markDownloadedAbsent ids st db) id =
      if id ∈ ids then some r
      else some { r with video_status := st } := by
  have hmem := dbFind_mem hf
  have hrow : r ∈ downloadedRows db := mem_downloadedRows.mpr ⟨hmem.1, hr⟩
  unfold markDownloadedAbsent
  have := mra_find_of_row ids st (downloadedRows db) db
    (nodupIds_downloadedRows hn) hrow
  rw [hmem.2] at this
  rw [this, hf]
  by_cases hin : id ∈ ids <;> simp [hin]

theorem nodupIds_mda (ids : List String) (st : VideoStatus) {db : DB}
    (hn : NodupIds db) : NodupIds (markDownloadedAbsent ids st db) := by
  unfold NodupIds markDownloadedAbsent
  rw [dbIds_mra]
  exact hn

/-! ### Lemmas about sorting and the preview table -/

theorem strLe_total : ∀ as bs : List Char, strLe as bs = true ∨ strLe bs as = true
  | [], _ => Or.inl rfl
  | _ :: _, [] => Or.inr rfl
  | a :: as, b :: bs => by
    by_cases h1 : a.toNat < b.toNat
    · exact Or.inl (by simp [strLe, h1])
    · by_cases h2 : b.toNat < a.toNat
      · exact Or.inr (by simp [strLe, h2])
      · rcases strLe_total as bs with h | h
        · exact Or.inl (by simp [strLe, h1, h2, h])
        · exact Or.inr (by simp [strLe, h1, h2, h])

theorem strLe_trans : ∀ as bs cs : List Char, strLe as bs = true →
    strLe bs cs = true → strLe as cs = true
  | [], _, _, _, _ => rfl
  | _ :: _, [], _, h, _ => by simp [strLe] at h
  | _ :: _, _ :: _, [], _, h => by simp [strLe] at h
  | a :: as, b :: bs, c :: cs, h1, h2 => by
    simp only [strLe] at h1 h2 ⊢
    by_cases hab : a.toNat < b.toNat
    · by_cases hbc : b.toNat < c.toNat
      · simp [Nat.lt_trans hab hbc]
      · by_cases hcb : c.toNat < b.toNat
        · simp [hbc, hcb] at h2
        · have hbceq : b.toNat = c.toNat :=
            Nat.le_antisymm (Nat.le_of_not_lt hcb) (Nat.le_of_not_lt hbc)
          simp [hbceq ▸ hab]
    · by_cases hba : b.toNat < a.toNat
      · simp [hab, hba] at h1
      · have habeq : a.toNat = b.toNat :=
          Nat.le_antisymm (Nat.le_of_not_lt hba) (Nat.le_of_not_lt hab)
        rw [if_neg hab, if_neg hba] at h1
        by_cases hbc : b.toNat < c.toNat
        · simp [habeq ▸ hbc]
        · by_cases hcb : c.toNat < b.toNat
          · simp [hbc, hcb] at h2
          · rw [if_neg hbc, if_neg hcb] at h2
            have hbceq : b.toNat = c.toNat :=
              Nat.le_antisymm (Nat.le_of_not_lt hcb) (Nat.le_of_not_lt hbc)
            have hac : ¬ a.toNat < c.toNat := by
              rw [habeq, hbceq]
              exact Nat.lt_irrefl _
            have hca : ¬ c.toNat < a.toNat := by
              rw [habeq, hbceq]
              exact Nat.lt_irrefl _
            rw [if_neg hac, if_neg hca]
            exact strLe_trans as bs cs h1 h2

instance : IsTotal FileRecord recLe :=
  ⟨fun a b => strLe_total a.video_id.data b.video_id.data⟩

instance : IsTrans FileRecord recLe :=
  ⟨fun _ _ _ h₁ h₂ => strLe_trans _ _ _ h₁ h₂⟩

theorem mem_sortById {db : DB} {r : FileRecord} :
    r ∈ sortById db ↔ r ∈ db :=
  (List.perm_insertionSort recLe db).mem_iff

theorem nodupIds_sortById {db : DB} (hn : NodupIds db) :
    NodupIds (sortById db) := by
  unfold NodupIds dbIds at hn ⊢
  exact (((List.perm_insertionSort recLe db).map
    (fun r => r.video_id)).nodup_iff).mpr hn

theorem pairwise_sortById (db : DB) : (sortById db).Pairwise recLe :=
  List.sorted_insertionSort recLe db

theorem mem_preview {db : DB} {k : ActionKind} {id : String} :
    (k, id) ∈ preview_changes db ↔
      ∃ r ∈ db, r.video_id = id ∧ rowAction r = some k := by
  unfold preview_changes
  rw [List.mem_filterMap]
  constructor
  · rintro ⟨r, hr, hfr⟩
    rw [Option.map_eq_some'] at hfr
    obtain ⟨a, ha, hpair⟩ := hfr
    have hk : a = k := congrArg Prod.fst hpair
    have hid : r.video_id = id := congrArg Prod.snd hpair
    exact ⟨r, mem_sortById.mp hr, hid, hk ▸ ha⟩
  · rintro ⟨r, hr, hid, ha⟩
    exact ⟨r, mem_sortById.mpr hr, by rw [ha]; simp [hid]⟩

theorem preview_eq_nil {db : DB} (h : ∀ r ∈ db, rowAction r = none) :
    preview_changes db = [] := by
  unfold preview_changes
  rw [List.filterMap_eq_nil_iff]
  intro r hr
  rw [h r (mem_sortById.mp hr)]
  rfl

theorem mem_preview_of_find {db : DB} {id : String} {r : FileRecord}
    {k : ActionKind} (hf : dbFind db id = some r)
    (ha : rowAction r = some k) : (k, id) ∈ preview_changes db :=
  mem_preview.mpr ⟨r, (dbFind_mem hf).1, (dbFind_mem hf).2, ha⟩

theorem not_mem_preview_of_find {db : DB} {id : String} {r : FileRecord}
    {k : ActionKind} (hn : NodupIds db) (hf : dbFind db id = some r)
    (ha : rowAction r ≠ some k) : (k, id) ∉ preview_changes db := by
  intro hmem
  obtain ⟨r', hr', hid, ha'⟩ := mem_preview.mp hmem
  rw [unique_of_find hn hf hr' hid] at ha'
  exact ha ha'

/-! ### Lemmas about the Mirror Executor -/

@[simp] theorem execState_with_events_db (r : ExecState) (e : List Event) :
    ({ r with events := e } : ExecState).db = r.db := rfl

@[simp] theorem execState_with_events_fs (r : ExecState) (e : List Event) :
    ({ r with events := e } : ExecState).fs = r.fs := rfl

@[simp] theorem execState_with_events_events (r : ExecState) (e : List Event) :
    ({ r with events := e } : ExecState).events = e := rfl

theorem isPending_iff (r : FileRecord) :
    isPending r = true ↔
      (r.video_status = VideoStatus.notDownloaded ∨
        r.video_status = VideoStatus.deleted ∨
          r.video_status = VideoStatus.updated) := by
  cases h : r.video_status <;> simp [isPending, h]

theorem mirrorRows_mem {db : DB} {row : FileRecord} :
    row ∈ sortById (db.filter isPending) ↔ row ∈ db ∧ isPending row = true := by
  rw [mem_sortById, List.mem_filter]

theorem mirrorRows_nodup {db : DB} (hn : NodupIds db) :
    ((sortById (db.filter isPending)).map (fun r => r.video_id)).Nodup :=
  nodupIds_sortById (nodupIds_filter db isPending hn)

theorem deletePhase_find (deleteOk : String → Bool) (rows : List FileRecord)
    (db : DB) (fs : FS) {id : String}
    (h : ∀ row ∈ rows, row.video_status = VideoStatus.deleted →
      deleteOk row.video_id = true → row.video_id ≠ id) :
    dbFind (deletePhase deleteOk rows db fs).db id = dbFind db id ∧
      fsFind (deletePhase deleteOk rows db fs).fs id = fsFind fs id := by
  induction rows generalizing db fs with
  | nil => exact ⟨rfl, rfl⟩
  | cons row rest ih =>
    have hrest := fun q hq => h q (List.mem_cons_of_mem _ hq)
    by_cases hd : row.video_status = VideoStatus.deleted
    · by_cases hok : deleteOk row.video_id
      · have hne : row.video_id ≠ id := h row (List.mem_cons_self _ _) hd hok
        simp only [deletePhase, if_pos hd, if_pos hok, execState_with_events_db,
          execState_with_events_fs]
        obtain ⟨h1, h2⟩ := ih (dbDelete db row.video_id)
          (fsRemove fs row.video_id) hrest
        rw [h1, h2, dbFind_delete_ne _ hne, fsFind_remove_ne _ hne]
        exact ⟨rfl, rfl⟩
      · simp only [deletePhase, if_pos hd, if_neg hok]
        exact ih db fs hrest
    · simp only [deletePhase, if_neg hd]
      exact ih db fs hrest

theorem deletePhase_events (deleteOk : String → Bool) (rows : List FileRecord)
    (db : DB) (fs : FS) :
    ∀ e ∈ (deletePhase deleteOk rows db fs).events, e.isDeletion = true := by
  induction rows generalizing db fs with
  | nil => intro e he; simp [deletePhase] at he
  | cons row rest ih =>
    by_cases hd : row.video_status = VideoStatus.deleted
    · by_cases hok : deleteOk row.video_id
      · simp only [deletePhase, if_pos hd, if_pos hok,
          execState_with_events_events]
        intro e he
        rcases List.mem_cons.mp he with rfl | he'
        · rfl
        · exact ih _ _ e he'
      · simp only [deletePhase, if_pos hd, if_neg hok]
        exact ih db fs
    · simp only [deletePhase, if_neg hd]
      exact ih db fs

theorem deletePhase_no_deleted (deleteOk : String → Bool)
    (rows : List FileRecord) (db : DB) (fs : FS)
    (h : ∀ row ∈ rows, row.video_status ≠ VideoStatus.deleted) :
    deletePhase deleteOk rows db fs = ⟨db, fs, []⟩ := by
  induction rows with
  | nil => rfl
  | cons row rest ih =>
    simp only [deletePhase, if_neg (h row (List.mem_cons_self _ _))]
    exact ih (fun q hq => h q (List.mem_cons_of_mem _ hq))

theorem transferPhase_find (transfer : String → TransferResult)
    (rows : List FileRecord) (db : DB) (fs : FS) {id : String}
    (h : ∀ row ∈ rows,
      (row.video_status = VideoStatus.notDownloaded ∨
        row.video_status = VideoStatus.updated) → row.video_id ≠ id) :
    dbFind (transferPhase transfer rows db fs).db id = dbFind db id ∧
      fsFind (transferPhase transfer rows db fs).fs id = fsFind fs id := by
  induction rows generalizing db fs with
  | nil => exact ⟨rfl, rfl⟩
  | cons row rest ih =>
    have hrest := fun q hq => h q (List.mem_cons_of_mem _ hq)
    by_cases hp : row.video_status = VideoStatus.notDownloaded ∨
        row.video_status = VideoStatus.updated
    · have hne : row.video_id ≠ id := h row (List.mem_cons_self _ _) hp
      cases ht : transfer row.video_id with
      | ok blocks =>
        simp only [transferPhase, if_pos hp, ht, execState_with_events_db,
          execState_with_events_fs]
        obtain ⟨h1, h2⟩ := ih (dbSetStatus db row.video_id
          VideoStatus.downloaded) (fsWrite fs row.video_id "") hrest
        rw [h1, h2, dbFind_setStatus_ne _ _ hne, fsFind_write_ne _ _ hne]
        exact ⟨rfl, rfl⟩
      | failAtOpen =>
        simp only [transferPhase, if_pos hp, ht]
        exact ih db fs hrest
      | failDuringTransfer =>
        simp only [transferPhase, if_pos hp, ht, execState_with_events_db,
          execState_with_events_fs]
        obtain ⟨h1, h2⟩ := ih db (fsWrite fs row.video_id "") hrest
        rw [h1, h2, fsFind_write_ne _ _ hne]
        exact ⟨rfl, rfl⟩
    · simp only [transferPhase, if_neg hp]
      exact ih db fs hrest

theorem transferPhase_find_row (transfer : String → TransferResult)
    (rows : List FileRecord) (db : DB) (fs : FS) {row : FileRecord}
    (hn : (rows.map (fun r => r.video_id)).Nodup) (hm : row ∈ rows)
    (hp : row.video_status = VideoStatus.notDownloaded ∨
      row.video_status = VideoStatus.updated) :
    dbFind (transferPhase transfer rows db fs).db row.video_id =
      (match transfer row.video_id with
        | TransferResult.ok _ => (dbFind db row.video_id).map
            (fun r => { r with video_status := VideoStatus.downloaded })
        | _ => dbFind db row.video_id) ∧
      fsFind (transferPhase transfer rows db fs).fs row.video_id =
        (match transfer row.video_id with
          | TransferResult.failAtOpen => fsFind fs row.video_id
          | _ => some "") := by
  induction rows generalizing db fs with
  | nil => simp at hm
  | cons q rest ih =>
    have hqn : q.video_id ∉ rest.map (fun r => r.video_id) :=
      (List.nodup_cons.mp hn).1
    have hrestn : (rest.map (fun r => r.video_id)).Nodup :=
      (List.nodup_cons.mp hn).2
    rcases List.mem_cons.mp hm with rfl | hmr
    · have hnorow : ∀ q ∈ rest,
          (q.video_status = VideoStatus.notDownloaded ∨
            q.video_status = VideoStatus.updated) → q.video_id ≠ row.video_id := by
        intro q hq _ he
        exact hqn (he ▸ List.mem_map.mpr ⟨q, hq, rfl⟩)
      cases ht : transfer row.video_id with
      | ok blocks =>
        simp only [transferPhase, if_pos hp, ht, execState_with_events_db,
          execState_with_events_fs]
        obtain ⟨h1, h2⟩ := transferPhase_find transfer rest _ _ hnorow
        rw [h1, h2, dbFind_setStatus_self, fsFind_write_self]
        exact ⟨rfl, rfl⟩
      | failAtOpen =>
        simp only [transferPhase, if_pos hp, ht]
        exact transferPhase_find transfer rest db fs hnorow
      | failDuringTransfer =>
        simp only [transferPhase, if_pos hp, ht, execState_with_events_db,
          execState_with_events_fs]
        obtain ⟨h1, h2⟩ := transferPhase_find transfer rest _ _ hnorow
        rw [h1, h2, fsFind_write_self]
        exact ⟨rfl, rfl⟩
    · have hne : q.video_id ≠ row.video_id := by
        intro he
        exact hqn (he ▸ List.mem_map.mpr ⟨row, hmr, rfl⟩)
      by_cases hq : q.video_status = VideoStatus.notDownloaded ∨
          q.video_status = VideoStatus.updated
      · cases ht : transfer q.video_id with
        | ok blocks =>
          simp only [transferPhase, if_pos hq, ht, execState_with_events_db,
            execState_with_events_fs]
          obtain ⟨h1, h2⟩ := ih (dbSetStatus db q.video_id
            VideoStatus.downloaded) (fsWrite fs q.video_id "") hrestn hmr
          rw [h1, h2, dbFind_setStatus_ne _ _ hne, fsFind_write_ne _ _ hne]
          exact ⟨rfl, rfl⟩
        | failAtOpen =>
          simp only [transferPhase, if_pos hq, ht]
          exact ih db fs hrestn hmr
        | failDuringTransfer =>
          simp only [transferPhase, if_pos hq, ht, execState_with_events_db,
            execState_with_events_fs]
          obtain ⟨h1, h2⟩ := ih db (fsWrite fs q.video_id "") hrestn hmr
          rw [h1, h2, fsFind_write_ne _ _ hne]
          exact ⟨rfl, rfl⟩
      · simp only [transferPhase, if_neg hq]
        exact ih db fs hrestn hmr

theorem progressEvents_not_deletion (id : String) (blocks : List String)
    (t : Nat) : ∀ e ∈ progressEvents id blocks t, e.isDeletion = false := by
  induction blocks generalizing t with
  | nil => intro e he; simp [progressEvents] at he
  | cons b rest ih =>
    intro e he
    rcases List.mem_cons.mp he with rfl | he'
    · rfl
    · exact ih _ e he'

theorem transferPhase_events (transfer : String → TransferResult)
    (rows : List FileRecord) (db : DB) (fs : FS) :
    ∀ e ∈ (transferPhase transfer rows db fs).events,
      e.isDeletion = false := by
  induction rows generalizing db fs with
  | nil => intro e he; simp [transferPhase] at he
  | cons row rest ih =>
    by_cases hp : row.video_status = VideoStatus.notDownloaded ∨
        row.video_status = VideoStatus.updated
    · cases ht : transfer row.video_id with
      | ok blocks =>
        simp only [transferPhase, if_pos hp, ht, execState_with_events_events]
        intro e he
        rcases List.mem_cons.mp he with rfl | he'
        · rfl
        · rcases List.mem_append.mp he' with hpr | hdn
          · exact progressEvents_not_deletion _ _ _ e hpr
          · rcases List.mem_cons.mp hdn with rfl | he''
            · rfl
            · exact ih _ _ e he''
      | failAtOpen =>
        simp only [transferPhase, if_pos hp, ht]
        exact ih db fs
      | failDuringTransfer =>
        simp only [transferPhase, if_pos hp, ht, execState_with_events_events]
        intro e he
        rcases List.mem_cons.mp he with rfl | he'
        · rfl
        · exact ih _ _ e he'
    · simp only [transferPhase, if_neg hp]
      exact ih db fs

theorem transferPhase_ids (transfer : String → TransferResult)
    (rows : List FileRecord) (db : DB) (fs : FS) :
    dbIds (transferPhase transfer rows db fs).db = dbIds db := by
  induction rows generalizing db fs with
  | nil => rfl
  | cons row rest ih =>
    by_cases hp : row.video_status = VideoStatus.notDownloaded ∨
        row.video_status = VideoStatus.updated
    · cases ht : transfer row.video_id with
      | ok blocks =>
        simp only [transferPhase, if_pos hp, ht, execState_with_events_db]
        rw [ih, dbIds_setStatus]
      | failAtOpen =>
        simp only [transferPhase, if_pos hp, ht]
        exact ih _ _
      | failDuringTransfer =>
        simp only [transferPhase, if_pos hp, ht, execState_with_events_db]
        exact ih _ _
    · simp only [transferPhase, if_neg hp]
      exact ih _ _

theorem mirror_db_eq (deleteOk : String → Bool)
    (transfer : String → TransferResult) (db : DB) (fs : FS) :
    (mirror_ftp_directory deleteOk transfer db fs).db =
      (transferPhase transfer (sortById (db.filter isPending))
        (deletePhase deleteOk (sortById (db.filter isPending)) db fs).db
        (deletePhase deleteOk (sortById (db.filter isPending)) db fs).fs).db :=
  rfl

theorem mirror_fs_eq (deleteOk : String → Bool)
    (transfer : String → TransferResult) (db : DB) (fs : FS) :
    (mirror_ftp_directory deleteOk transfer db fs).fs =
      (transferPhase transfer (sortById (db.filter isPending))
        (deletePhase deleteOk (sortById (db.filter isPending)) db fs).db
        (deletePhase deleteOk (sortById (db.filter isPending)) db fs).fs).fs :=
  rfl

theorem mirror_events_eq (deleteOk : String → Bool)
    (transfer : String → TransferResult) (db : DB) (fs : FS) :
    (mirror_ftp_directory deleteOk transfer db fs).events =
      (deletePhase deleteOk (sortById (db.filter isPending)) db fs).events ++
        (transferPhase transfer (sortById (db.filter isPending))
          (deletePhase deleteOk (sortById (db.filter isPending)) db fs).db
          (deletePhase deleteOk (sortById (db.filter isPending)) db fs).fs).events :=
  rfl

theorem pairwise_filterMap_of_pairwise {α β : Type} (f : α → Option β)
    (R : α → α → Prop) (S : β → β → Prop)
    (hf : ∀ a a' b b', R a a' → f a = some b → f a' = some b' → S b b')
    (l : List α) (hl : l.Pairwise R) : (l.filterMap f).Pairwise S := by
  induction hl with
  | nil => simp
  | cons hhead _ ih =>
    rename_i a l' _
    rw [List.filterMap_cons]
    cases hfa : f a with
    | none => exact ih
    | some b =>
      refine List.Pairwise.cons ?_ ih
      intro b' hb'
      obtain ⟨a', ha', hfa'⟩ := List.mem_filterMap.mp hb'
      exact hf a a' b b' (hhead a' ha') hfa hfa'

theorem pairwise_flag_of_all_true {l : List Event}
    (h : ∀ e ∈ l, e.isDeletion = true) :
    l.Pairwise (fun a b => b.isDeletion = true → a.isDeletion = true) := by
  induction l with
  | nil => exact List.Pairwise.nil
  | cons a t ih =>
    refine List.Pairwise.cons (fun b _ _ => h a (List.mem_cons_self _ _)) ?_
    exact ih (fun e he => h e (List.mem_cons_of_mem _ he))

theorem pairwise_flag_of_all_false {l : List Event}
    (h : ∀ e ∈ l, e.isDeletion = false) :
    l.Pairwise (fun a b => b.isDeletion = true → a.isDeletion = true) := by
  induction l with
  | nil => exact List.Pairwise.nil
  | cons a t ih =>
    refine List.Pairwise.cons (fun b hb hbd => ?_) ?_
    · exact absurd hbd (by simp [h b (List.mem_cons_of_mem _ hb)])
    · exact ih (fun e he => h e (List.mem_cons_of_mem _ he))

/-! ### Claim theorems -/

/-- Claim C1 (code bug): the spec says every chunk received from the remote
byte stream is written sequentially to the local file, so that on success the
local content equals the fetched stream.  In the source the `retrbinary`
callback (`main.py` lines 161-168) only advances the byte counter and prints
a progress line; no block is ever written to the opened `local_file`.
Evaluating the embedded executor on a one-file state whose remote stream is
the single non-empty block "x" shows the transfer reported successful (the
row becomes `DOWNLOADED`) while the local file content is left empty instead
of equal to the stream. -/
theorem download_leaves_local_file_empty :
    (mirror_ftp_directory (fun _ => true) (fun _ => TransferResult.ok ["x"])
      [⟨"a", VideoStatus.notDownloaded, 1⟩] []).db =
        [⟨"a", VideoStatus.downloaded, 1⟩] ∧
    (mirror_ftp_directory (fun _ => true) (fun _ => TransferResult.ok ["x"])
      [⟨"a", VideoStatus.notDownloaded, 1⟩] []).fs = [("a", "")] ∧
    ("" : String) ≠ "x" := by
  refine ⟨by decide, by decide, by decide⟩

/-- Claim C2, counterexample: a record with status `DELETED` whose id is
reported by the remote with a size equal to the stored `video_remote_size`
keeps status `DELETED` (`scan_remote` changes a known row only when the size
differs), so the pass still yields a Delete action for an id that is present
in the remote snapshot. -/
theorem deleted_reappearing_same_size_still_deleted :
    (ActionKind.delete, "a") ∈
      pass_actions [("a", 5)] ["a"] [⟨"a", VideoStatus.deleted, 5⟩] := by
  decide

/-- Claim C2, amended: for a persisted record whose id the remote reports
with a size different from the stored one, the pass sets the record to
`UPDATED` with the new size and yields an Update action and no Delete action
for that id; but a record with status `DELETED` whose id reappears with an
unchanged size keeps status `DELETED` and still yields a Delete action. -/
theorem remote_size_change_reenters_pull (remote : List (String × Int))
    (localIds : List String) (db : DB) (r : FileRecord)
    (hn : NodupIds db) (hk : (remote.map Prod.fst).Nodup) (hr : r ∈ db) :
    (∀ s : Int, (r.video_id, s) ∈ remote → s ≠ r.video_remote_size →
      dbFind (reconcile remote localIds db) r.video_id =
        some { r with video_status := VideoStatus.updated, video_remote_size := s } ∧
      (ActionKind.update, r.video_id) ∈ pass_actions remote localIds db ∧
      (ActionKind.delete, r.video_id) ∉ pass_actions remote localIds db) ∧
    (r.video_status = VideoStatus.deleted →
      (r.video_id, r.video_remote_size) ∈ remote →
      dbFind (reconcile remote localIds db) r.video_id = some r ∧
      (ActionKind.delete, r.video_id) ∈ pass_actions remote localIds db) := by
  have hf : dbFind db r.video_id = some r := dbFind_of_mem_nodup hn hr
  have hn1 : NodupIds (scanRemoteInsertUpdate remote db) := siu_nodup remote db hn
  constructor
  · intro s hs hne
    have d1 := siu_find_diff remote db hk hs hf hne
    have hupd : ({ r with video_status := VideoStatus.updated, video_remote_size := s } : FileRecord).video_status ≠ VideoStatus.downloaded := by
      simp
    have d2 : dbFind (scan_remote_ok remote db) r.video_id =
        some { r with video_status := VideoStatus.updated, video_remote_size := s } := by
      unfold scan_remote_ok
      exact mda_find_not_downloaded _ _ hn1 d1 hupd
    have hn2 : NodupIds (scan_remote_ok remote db) := nodupIds_mda _ _ hn1
    have d3 : dbFind (reconcile remote localIds db) r.video_id =
        some { r with video_status := VideoStatus.updated, video_remote_size := s } := by
      unfold reconcile scan_local
      exact mda_find_not_downloaded _ _ hn2 d2 hupd
    have hn3 : NodupIds (reconcile remote localIds db) := by
      unfold reconcile scan_local
      exact nodupIds_mda _ _ hn2
    have hact : rowAction { r with video_status := VideoStatus.updated, video_remote_size := s } = some ActionKind.update := by
      simp [rowAction]
    refine ⟨d3, mem_preview_of_find d3 hact, ?_⟩
    exact not_mem_preview_of_find hn3 d3 (by simp [hact])
  · intro hdel hs
    have d1 := siu_find_same remote db hk hs hf rfl
    have hnd : r.video_status ≠ VideoStatus.downloaded := by simp [hdel]
    have d2 : dbFind (scan_remote_ok remote db) r.video_id = some r := by
      unfold scan_remote_ok
      exact mda_find_not_downloaded _ _ hn1 d1 hnd
    have hn2 : NodupIds (scan_remote_ok remote db) := nodupIds_mda _ _ hn1
    have d3 : dbFind (reconcile remote localIds db) r.video_id = some r := by
      unfold reconcile scan_local
      exact mda_find_not_downloaded _ _ hn2 d2 hnd
    have hact : rowAction r = some ActionKind.delete := by
      simp [rowAction, hdel]
    exact ⟨d3, mem_preview_of_find d3 hact⟩

/-- Witness for the amended claim C2: a downloaded record of size 5 whose id
the remote now reports with size 7 ends `UPDATED` with size 7, produces an
Update action and no Delete action; a deleted record of size 5 reported again
with size 5 stays `DELETED` and still produces a Delete action. -/
theorem remote_size_change_reenters_pull_witness :
    (dbFind (reconcile [("a", 7)] [] [⟨"a", VideoStatus.downloaded, 5⟩]) "a" =
        some ⟨"a", VideoStatus.updated, 7⟩ ∧
      (ActionKind.update, "a") ∈
        pass_actions [("a", 7)] [] [⟨"a", VideoStatus.downloaded, 5⟩] ∧
      (ActionKind.delete, "a") ∉
        pass_actions [("a", 7)] [] [⟨"a", VideoStatus.downloaded, 5⟩]) ∧
    (dbFind (reconcile [("b", 5)] [] [⟨"b", VideoStatus.deleted, 5⟩]) "b" =
        some ⟨"b", VideoStatus.deleted, 5⟩ ∧
      (ActionKind.delete, "b") ∈
        pass_actions [("b", 5)] [] [⟨"b", VideoStatus.deleted, 5⟩]) :=
  ⟨(remote_size_change_reenters_pull [("a", 7)] []
      [⟨"a", VideoStatus.downloaded, 5⟩] ⟨"a", VideoStatus.downloaded, 5⟩
      (by decide) (by decide) (by decide)).1 7 (by decide) (by decide),
    (remote_size_change_reenters_pull [("b", 5)] []
      [⟨"b", VideoStatus.deleted, 5⟩] ⟨"b", VideoStatus.deleted, 5⟩
      (by decide) (by decide) (by decide)).2 rfl (by decide)⟩

/-- Claim C3, counterexample: a full reconciliation pass over a state holding
one downloaded file "a" that vanished from the remote and one new remote file
"b" produces the action list `[Delete "a", Download "b"]` — a Delete action
placed before a Download action, contradicting the claimed grouping of all
Download/Update actions before all Delete actions. -/
theorem action_list_delete_before_download :
    pass_actions [("b", 2)] ["a"] [⟨"a", VideoStatus.downloaded, 1⟩] =
      [(ActionKind.delete, "a"), (ActionKind.download, "b")] := by
  decide

/-- Claim C3, amended: the action list produced by a reconciliation pass is
sorted by identifier ascending with Download, Update and Delete entries
interleaved in that single order (rows are read `ORDER BY video_id ASC`),
not grouped by action kind. -/
theorem pass_actions_sorted_by_id (remote : List (String × Int))
    (localIds : List String) (db : DB) :
    (pass_actions remote localIds db).Pairwise (fun p q => idLe p.2 q.2) := by
  unfold pass_actions preview_changes
  refine pairwise_filterMap_of_pairwise _ recLe _ ?_ _
    (pairwise_sortById (reconcile remote localIds db))
  intro a a' b b' hR ha ha'
  rw [Option.map_eq_some'] at ha ha'
  obtain ⟨k, _, hpair⟩ := ha
  obtain ⟨k', _, hpair'⟩ := ha'
  have h2 : b.2 = a.video_id := by rw [← hpair]
  have h2' : b'.2 = a'.video_id := by rw [← hpair']
  rw [h2, h2']
  exact hR

/-- Claim C4, counterexample: when the remote listing fails, `scan_remote`
logs and calls `sys.exit(1)` (`main.py` line 61); the embedded outer-loop
reaction is `terminate`, never `sleepAndRepeat`, so the outer polling loop
never gets to decide to retry after a delay. -/
theorem failing_remote_listing_terminates_process :
    outer_loop_reaction (reconcile_pass (Except.error ()) (Except.ok ["a"])
        [⟨"a", VideoStatus.downloaded, 1⟩]) false = LoopDecision.terminate ∧
      outer_loop_reaction (reconcile_pass (Except.error ()) (Except.ok ["a"])
        [⟨"a", VideoStatus.downloaded, 1⟩]) false ≠
          LoopDecision.sleepAndRepeat := by
  exact ⟨rfl, by decide⟩

/-- Claim C4, amended: when a fatal condition occurs (remote directory
listing unreadable, or local scan failure) the program terminates the whole
process via `sys.exit(1)` instead of returning the error to the polling loop,
so no retry ever happens; a remote-listing failure leaves the persisted
record set exactly as it was (no partial reconciliation), while a local-scan
failure exits only after the remote reconciliation has already been
committed. -/
theorem fatal_scan_error_exits_process (localListing : Except Unit (List String))
    (db : DB) (pm : Bool) (remote : List (String × Int)) :
    reconcile_pass (Except.error ()) localListing db =
        PassResult.exitProcess db ∧
      outer_loop_reaction (reconcile_pass (Except.error ()) localListing db)
        pm = LoopDecision.terminate ∧
      reconcile_pass (Except.ok remote) (Except.error ()) db =
        PassResult.exitProcess (scan_remote_ok remote db) ∧
      outer_loop_reaction (reconcile_pass (Except.ok remote)
        (Except.error ()) db) pm = LoopDecision.terminate :=
  ⟨rfl, rfl, rfl, rfl⟩

/-- Claim C5: a `DOWNLOADED` record whose id is missing locally but still
present remotely with unchanged size is reset to `NOT_DOWNLOADED` by
`scan_local`, and the pass plans a Download, not a Delete, for that id. -/
theorem local_drift_forces_redownload (remote : List (String × Int))
    (localIds : List String) (db : DB) (r : FileRecord)
    (hn : NodupIds db) (hk : (remote.map Prod.fst).Nodup)
    (hr : r ∈ db) (hst : r.video_status = VideoStatus.downloaded)
    (hrem : (r.video_id, r.video_remote_size) ∈ remote)
    (hloc : r.video_id ∉ localIds) :
    dbFind (reconcile remote localIds db) r.video_id =
      some { r with video_status := VideoStatus.notDownloaded } ∧
    (ActionKind.download, r.video_id) ∈ pass_actions remote localIds db ∧
    (ActionKind.delete, r.video_id) ∉ pass_actions remote localIds db := by
  have hf : dbFind db r.video_id = some r := dbFind_of_mem_nodup hn hr
  have hn1 : NodupIds (scanRemoteInsertUpdate remote db) := siu_nodup remote db hn
  have d1 := siu_find_same remote db hk hrem hf rfl
  have hkm : r.video_id ∈ remote.map Prod.fst :=
    List.mem_map.mpr ⟨(r.video_id, r.video_remote_size), hrem, rfl⟩
  have d2 : dbFind (scan_remote_ok remote db) r.video_id = some r := by
    unfold scan_remote_ok
    rw [mda_find_downloaded _ _ hn1 d1 hst, if_pos hkm]
  have hn2 : NodupIds (scan_remote_ok remote db) := nodupIds_mda _ _ hn1
  have d3 : dbFind (reconcile remote localIds db) r.video_id =
      some { r with video_status := VideoStatus.notDownloaded } := by
    unfold reconcile scan_local
    rw [mda_find_downloaded _ _ hn2 d2 hst, if_neg hloc]
  have hn3 : NodupIds (reconcile remote localIds db) := by
    unfold reconcile scan_local
    exact nodupIds_mda _ _ hn2
  have hact : rowAction { r with video_status := VideoStatus.notDownloaded } =
      some ActionKind.download := by simp [rowAction]
  exact ⟨d3, mem_preview_of_find d3 hact,
    not_mem_preview_of_find hn3 d3 (by simp [hact])⟩

/-- Witness for claim C5: file "x" is recorded `DOWNLOADED` with size 4 and
still on the remote with size 4, but missing from the local listing; the pass
resets it to `NOT_DOWNLOADED` and plans a Download, not a Delete. -/
theorem local_drift_forces_redownload_witness :
    dbFind (reconcile [("x", 4)] [] [⟨"x", VideoStatus.downloaded, 4⟩]) "x" =
      some ⟨"x", VideoStatus.notDownloaded, 4⟩ ∧
    (ActionKind.download, "x") ∈
      pass_actions [("x", 4)] [] [⟨"x", VideoStatus.downloaded, 4⟩] ∧
    (ActionKind.delete, "x") ∉
      pass_actions [("x", 4)] [] [⟨"x", VideoStatus.downloaded, 4⟩] :=
  local_drift_forces_redownload [("x", 4)] [] [⟨"x", VideoStatus.downloaded, 4⟩]
    ⟨"x", VideoStatus.downloaded, 4⟩ (by decide) (by decide) (by decide)
    (by decide) (by decide) (by decide)

theorem dbIds_map_mkNew (remote : List (String × Int)) :
    dbIds (remote.map mkNew) = remote.map Prod.fst := by
  simp only [dbIds, List.map_map]
  rfl

theorem status_mem_map_mkNew {remote : List (String × Int)} {r : FileRecord}
    (h : r ∈ remote.map mkNew) :
    r.video_status = VideoStatus.notDownloaded := by
  obtain ⟨p, _, rfl⟩ := List.mem_map.mp h
  rfl

theorem reconcile_empty_state (remote : List (String × Int))
    (localIds : List String) (hk : (remote.map Prod.fst).Nodup) :
    reconcile remote localIds [] = remote.map mkNew := by
  have h1 : scanRemoteInsertUpdate remote [] = remote.map mkNew := by
    have := siu_from_fresh remote [] (fun p _ => rfl) hk
    simpa using this
  have hdr : downloadedRows (remote.map mkNew) = [] := by
    rw [downloadedRows, List.filter_eq_nil_iff]
    intro r hr
    simp [status_mem_map_mkNew hr]
  have h2 : scan_remote_ok remote [] = remote.map mkNew := by
    unfold scan_remote_ok markDownloadedAbsent
    rw [h1, hdr]
    rfl
  have h3 : scan_local localIds (remote.map mkNew) = remote.map mkNew := by
    unfold scan_local markDownloadedAbsent
    rw [hdr]
    rfl
  unfold reconcile
  rw [h2, h3]

@[simp] theorem execState_mk_db (db : DB) (fs : FS) (ev : List Event) :
    (⟨db, fs, ev⟩ : ExecState).db = db := rfl

@[simp] theorem execState_mk_fs (db : DB) (fs : FS) (ev : List Event) :
    (⟨db, fs, ev⟩ : ExecState).fs = fs := rfl

@[simp] theorem execState_mk_events (db : DB) (fs : FS) (ev : List Event) :
    (⟨db, fs, ev⟩ : ExecState).events = ev := rfl

/-- Claim C6: starting from an empty persisted state, one full
reconcile-and-mirror pass over a remote snapshot with distinct ids, in which
every transfer succeeds, leaves every remote id with exactly one record whose
status is `DOWNLOADED` and whose remote size is the listed size. -/
theorem empty_state_converges (remote : List (String × Int))
    (localIds : List String) (deleteOk : String → Bool)
    (transfer : String → TransferResult) (fs : FS)
    (hk : (remote.map Prod.fst).Nodup)
    (htr : ∀ id, (transfer id).isOk = true) :
    ∀ p ∈ remote,
      dbFind (full_mirror_pass remote localIds deleteOk transfer [] fs).db p.1 =
        some ⟨p.1, VideoStatus.downloaded, p.2⟩ ∧
      countId (full_mirror_pass remote localIds deleteOk transfer [] fs).db
        p.1 = 1 := by
  intro p hp
  have hrec := reconcile_empty_state remote localIds hk
  have hnR : NodupIds (remote.map mkNew) := by
    unfold NodupIds
    rw [dbIds_map_mkNew]
    exact hk
  have hdel : deletePhase deleteOk
      (sortById ((remote.map mkNew).filter isPending)) (remote.map mkNew) fs =
        ⟨remote.map mkNew, fs, []⟩ := by
    refine deletePhase_no_deleted _ _ _ _ (fun row hrow => ?_)
    have hm := (mirrorRows_mem.mp hrow).1
    simp [status_mem_map_mkNew hm]
  have hrowmem : mkNew p ∈ sortById ((remote.map mkNew).filter isPending) := by
    refine mirrorRows_mem.mpr ⟨List.mem_map.mpr ⟨p, hp, rfl⟩, ?_⟩
    rfl
  have hprow : (mkNew p).video_status = VideoStatus.notDownloaded ∨
      (mkNew p).video_status = VideoStatus.updated := Or.inl rfl
  have hfR : dbFind (remote.map mkNew) (mkNew p).video_id = some (mkNew p) :=
    dbFind_of_mem_nodup hnR (List.mem_map.mpr ⟨p, hp, rfl⟩)
  obtain ⟨blocks, hblocks⟩ : ∃ blocks,
      transfer (mkNew p).video_id = TransferResult.ok blocks := by
    cases htc : transfer (mkNew p).video_id with
    | ok blocks => exact ⟨blocks, rfl⟩
    | failAtOpen => have := htr (mkNew p).video_id; rw [htc] at this; cases this
    | failDuringTransfer =>
      have := htr (mkNew p).video_id; rw [htc] at this; cases this
  have hmain := transferPhase_find_row transfer
    (sortById ((remote.map mkNew).filter isPending)) (remote.map mkNew) fs
    (mirrorRows_nodup hnR) hrowmem hprow
  rw [hblocks] at hmain
  constructor
  · unfold full_mirror_pass
    rw [hrec, mirror_db_eq]
    simp only [hdel, execState_mk_db, execState_mk_fs]
    rw [← mkNew_id p, hmain.1, hfR]
    rfl
  · unfold full_mirror_pass countId
    rw [hrec, mirror_db_eq]
    simp only [hdel, execState_mk_db, execState_mk_fs]
    rw [transferPhase_ids, dbIds_map_mkNew]
    have hmem : p.1 ∈ remote.map Prod.fst := List.mem_map.mpr ⟨p, hp, rfl⟩
    exact List.count_eq_one_of_mem hk hmem

/-- Witness for claim C6: from the empty state, mirroring the two-file remote
snapshot [("a", 1), ("b", 2)] with all transfers succeeding leaves id "a"
with exactly one record, `DOWNLOADED` at size 1. -/
theorem empty_state_converges_witness :
    dbFind (full_mirror_pass [("a", 1), ("b", 2)] [] (fun _ => true)
        (fun _ => TransferResult.ok ["z"]) [] []).db "a" =
      some ⟨"a", VideoStatus.downloaded, 1⟩ ∧
    countId (full_mirror_pass [("a", 1), ("b", 2)] [] (fun _ => true)
        (fun _ => TransferResult.ok ["z"]) [] []).db "a" = 1 :=
  empty_state_converges [("a", 1), ("b", 2)] [] (fun _ => true)
    (fun _ => TransferResult.ok ["z"]) [] (by decide) (fun _ => rfl)
    ("a", 1) (by decide)

/-- Claim C7: with the remote unchanged and the state fully synchronized
(every record `DOWNLOADED` with the remote's size, every remote id recorded,
every recorded file present locally), reconciliation leaves the record set
unchanged and produces an empty action list, in this pass and in a second
identical pass. -/
theorem synced_reconciliation_is_no_op (remote : List (String × Int))
    (localIds : List String) (db : DB)
    (hsync : ∀ r ∈ db, r.video_status = VideoStatus.downloaded ∧
      (r.video_id, r.video_remote_size) ∈ remote ∧ r.video_id ∈ localIds)
    (hcov : ∀ p ∈ remote, dbFind db p.1 =
      some ⟨p.1, VideoStatus.downloaded, p.2⟩) :
    reconcile remote localIds db = db ∧
    pass_actions remote localIds db = [] ∧
    pass_actions remote localIds (reconcile remote localIds db) = [] := by
  have h1 : scanRemoteInsertUpdate remote db = db :=
    siu_no_op remote db (fun p hp =>
      ⟨⟨p.1, VideoStatus.downloaded, p.2⟩, hcov p hp, rfl⟩)
  have h2 : scan_remote_ok remote db = db := by
    unfold scan_remote_ok markDownloadedAbsent
    rw [h1]
    refine mra_no_op _ _ _ _ (fun row hrow => ?_)
    have hm := (mem_downloadedRows.mp hrow).1
    exact List.mem_map.mpr
      ⟨(row.video_id, row.video_remote_size), (hsync row hm).2.1, rfl⟩
  have h3 : scan_local localIds db = db := by
    unfold scan_local markDownloadedAbsent
    refine mra_no_op _ _ _ _ (fun row hrow => ?_)
    exact (hsync row (mem_downloadedRows.mp hrow).1).2.2
  have hrec : reconcile remote localIds db = db := by
    unfold reconcile
    rw [h2, h3]
  have hacts : pass_actions remote localIds db = [] := by
    unfold pass_actions
    rw [hrec]
    refine preview_eq_nil (fun r hr => ?_)
    simp [rowAction, (hsync r hr).1]
  refine ⟨hrec, hacts, ?_⟩
  rw [hrec]
  exact hacts

/-- Witness for claim C7: the one-file synchronized state over remote
[("a", 3)] reconciles to itself with an empty action list both times. -/
theorem synced_reconciliation_is_no_op_witness :
    reconcile [("a", 3)] ["a"] [⟨"a", VideoStatus.downloaded, 3⟩] =
      [⟨"a", VideoStatus.downloaded, 3⟩] ∧
    pass_actions [("a", 3)] ["a"] [⟨"a", VideoStatus.downloaded, 3⟩] = [] ∧
    pass_actions [("a", 3)] ["a"]
      (reconcile [("a", 3)] ["a"] [⟨"a", VideoStatus.downloaded, 3⟩]) = [] :=
  synced_reconciliation_is_no_op [("a", 3)] ["a"]
    [⟨"a", VideoStatus.downloaded, 3⟩] (by decide) (by decide)

/-- Claim C8: in one executor batch, a file whose transfer fails keeps its
record exactly as it was before the batch (so the next pass retries it),
while every pending file whose transfer succeeds ends `DOWNLOADED`; the
failing file does not abort the rest of the batch. -/
theorem partial_failure_isolation (deleteOk : String → Bool)
    (transfer : String → TransferResult) (db : DB) (fs : FS) (r : FileRecord)
    (hn : NodupIds db) (hr : r ∈ db)
    (hp : r.video_status = VideoStatus.notDownloaded ∨
      r.video_status = VideoStatus.updated) :
    ((transfer r.video_id).isOk = false →
      dbFind (mirror_ftp_directory deleteOk transfer db fs).db r.video_id =
        some r) ∧
    (∀ blocks, transfer r.video_id = TransferResult.ok blocks →
      dbFind (mirror_ftp_directory deleteOk transfer db fs).db r.video_id =
        some { r with video_status := VideoStatus.downloaded }) := by
  have hf : dbFind db r.video_id = some r := dbFind_of_mem_nodup hn hr
  have hpend : isPending r = true := by
    rw [isPending_iff]
    rcases hp with h | h
    · exact Or.inl h
    · exact Or.inr (Or.inr h)
  have hrow : r ∈ sortById (db.filter isPending) :=
    mirrorRows_mem.mpr ⟨hr, hpend⟩
  have hdcond : ∀ row ∈ sortById (db.filter isPending),
      row.video_status = VideoStatus.deleted → deleteOk row.video_id = true →
        row.video_id ≠ r.video_id := by
    intro row hrowm hdel _ he
    have hm := (mirrorRows_mem.mp hrowm).1
    rw [unique_of_find hn hf hm he] at hdel
    rcases hp with h | h <;> rw [h] at hdel <;> cases hdel
  have hd := deletePhase_find deleteOk (sortById (db.filter isPending)) db fs
    hdcond
  have hmain := transferPhase_find_row transfer (sortById (db.filter isPending))
    (deletePhase deleteOk (sortById (db.filter isPending)) db fs).db
    (deletePhase deleteOk (sortById (db.filter isPending)) db fs).fs
    (mirrorRows_nodup hn) hrow hp
  constructor
  · intro hfail
    cases ht : transfer r.video_id with
    | ok blocks =>
      rw [ht] at hfail
      simp [TransferResult.isOk] at hfail
    | failAtOpen =>
      simp only [ht] at hmain
      rw [mirror_db_eq, hmain.1, hd.1, hf]
    | failDuringTransfer =>
      simp only [ht] at hmain
      rw [mirror_db_eq, hmain.1, hd.1, hf]
  · intro blocks hblocks
    simp only [hblocks] at hmain
    rw [mirror_db_eq, hmain.1, hd.1, hf]
    rfl

/-- Witness for claim C8: in the batch {a, b, c} where only b's transfer
fails, b's record is unchanged and a and c end `DOWNLOADED`. -/
theorem partial_failure_isolation_witness :
    dbFind (mirror_ftp_directory (fun _ => true)
        (fun id => if id = "b" then TransferResult.failDuringTransfer
          else TransferResult.ok ["z"])
        [⟨"a", VideoStatus.notDownloaded, 1⟩,
          ⟨"b", VideoStatus.notDownloaded, 2⟩,
          ⟨"c", VideoStatus.updated, 3⟩] []).db "b" =
      some ⟨"b", VideoStatus.notDownloaded, 2⟩ ∧
    dbFind (mirror_ftp_directory (fun _ => true)
        (fun id => if id = "b" then TransferResult.failDuringTransfer
          else TransferResult.ok ["z"])
        [⟨"a", VideoStatus.notDownloaded, 1⟩,
          ⟨"b", VideoStatus.notDownloaded, 2⟩,
          ⟨"c", VideoStatus.updated, 3⟩] []).db "a" =
      some ⟨"a", VideoStatus.downloaded, 1⟩ ∧
    dbFind (mirror_ftp_directory (fun _ => true)
        (fun id => if id = "b" then TransferResult.failDuringTransfer
          else TransferResult.ok ["z"])
        [⟨"a", VideoStatus.notDownloaded, 1⟩,
          ⟨"b", VideoStatus.notDownloaded, 2⟩,
          ⟨"c", VideoStatus.updated, 3⟩] []).db "c" =
      some ⟨"c", VideoStatus.downloaded, 3⟩ :=
  ⟨(partial_failure_isolation (fun _ => true)
      (fun id => if id = "b" then TransferResult.failDuringTransfer
        else TransferResult.ok ["z"])
      [⟨"a", VideoStatus.notDownloaded, 1⟩, ⟨"b", VideoStatus.notDownloaded, 2⟩,
        ⟨"c", VideoStatus.updated, 3⟩] [] ⟨"b", VideoStatus.notDownloaded, 2⟩
      (by decide) (by decide) (Or.inl rfl)).1 (by decide),
    (partial_failure_isolation (fun _ => true)
      (fun id => if id = "b" then TransferResult.failDuringTransfer
        else TransferResult.ok ["z"])
      [⟨"a", VideoStatus.notDownloaded, 1⟩, ⟨"b", VideoStatus.notDownloaded, 2⟩,
        ⟨"c", VideoStatus.updated, 3⟩] [] ⟨"a", VideoStatus.notDownloaded, 1⟩
      (by decide) (by decide) (Or.inl rfl)).2 ["z"] (by decide),
    (partial_failure_isolation (fun _ => true)
      (fun id => if id = "b" then TransferResult.failDuringTransfer
        else TransferResult.ok ["z"])
      [⟨"a", VideoStatus.notDownloaded, 1⟩, ⟨"b", VideoStatus.notDownloaded, 2⟩,
        ⟨"c", VideoStatus.updated, 3⟩] [] ⟨"c", VideoStatus.updated, 3⟩
      (by decide) (by decide) (Or.inr rfl)).2 ["z"] (by decide)⟩

/-- Claim C9: the executor's event trace never has a local-deletion event
after a transfer event (all deletions complete before any download or update
begins), and a delete that fails at the OS level is skipped without aborting
the batch, leaving its record untouched with status `DELETED`. -/
theorem deletions_precede_transfers (deleteOk : String → Bool)
    (transfer : String → TransferResult) (db : DB) (fs : FS) (r : FileRecord)
    (hn : NodupIds db) (hr : r ∈ db)
    (hst : r.video_status = VideoStatus.deleted)
    (hfail : deleteOk r.video_id = false) :
    (mirror_ftp_directory deleteOk transfer db fs).events.Pairwise
      (fun a b => b.isDeletion = true → a.isDeletion = true) ∧
    dbFind (mirror_ftp_directory deleteOk transfer db fs).db r.video_id =
      some r := by
  have hf : dbFind db r.video_id = some r := dbFind_of_mem_nodup hn hr
  constructor
  · rw [mirror_events_eq, List.pairwise_append]
    refine ⟨pairwise_flag_of_all_true (deletePhase_events _ _ _ _),
      pairwise_flag_of_all_false (transferPhase_events _ _ _ _), ?_⟩
    intro a ha b _ _
    exact deletePhase_events _ _ _ _ a ha
  · have hdcond : ∀ row ∈ sortById (db.filter isPending),
        row.video_status = VideoStatus.deleted → deleteOk row.video_id = true →
          row.video_id ≠ r.video_id := by
      intro row hrowm _ hok he
      have hm := (mirrorRows_mem.mp hrowm).1
      rw [he] at hok
      rw [hok] at hfail
      cases hfail
    have hd := deletePhase_find deleteOk (sortById (db.filter isPending)) db fs
      hdcond
    have htcond : ∀ row ∈ sortById (db.filter isPending),
        (row.video_status = VideoStatus.notDownloaded ∨
          row.video_status = VideoStatus.updated) → row.video_id ≠ r.video_id := by
      intro row hrowm hpend he
      have hm := (mirrorRows_mem.mp hrowm).1
      rw [unique_of_find hn hf hm he, hst] at hpend
      rcases hpend with h | h <;> cases h
    have ht := transferPhase_find transfer (sortById (db.filter isPending))
      (deletePhase deleteOk (sortById (db.filter isPending)) db fs).db
      (deletePhase deleteOk (sortById (db.filter isPending)) db fs).fs htcond
    rw [mirror_db_eq, ht.1, hd.1, hf]

/-- Witness for claim C9: with a deleted record "a" whose `os.remove` fails
and a pending download "b", the trace keeps all deletions before all
transfer events and "a" stays recorded as `DELETED`. -/
theorem deletions_precede_transfers_witness :
    (mirror_ftp_directory (fun _ => false)
        (fun _ => TransferResult.ok ["z"])
        [⟨"a", VideoStatus.deleted, 1⟩, ⟨"b", VideoStatus.notDownloaded, 2⟩]
        [("a", "old")]).events.Pairwise
      (fun a b => b.isDeletion = true → a.isDeletion = true) ∧
    dbFind (mirror_ftp_directory (fun _ => false)
        (fun _ => TransferResult.ok ["z"])
        [⟨"a", VideoStatus.deleted, 1⟩, ⟨"b", VideoStatus.notDownloaded, 2⟩]
        [("a", "old")]).db "a" = some ⟨"a", VideoStatus.deleted, 1⟩ :=
  deletions_precede_transfers (fun _ => false) (fun _ => TransferResult.ok ["z"])
    [⟨"a", VideoStatus.deleted, 1⟩, ⟨"b", VideoStatus.notDownloaded, 2⟩]
    [("a", "old")] ⟨"a", VideoStatus.deleted, 1⟩ (by decide) (by decide)
    rfl rfl

/-- Claim C10: executing a Download or Update opens the local file in mode
"wb", truncating it before any remote data arrives; if the transfer then
fails the record is left unchanged but the previous local content is not
restored — the file is left empty, destroying the last good local copy. -/
theorem failed_transfer_leaves_truncated_file (deleteOk : String → Bool)
    (transfer : String → TransferResult) (db : DB) (fs : FS) (r : FileRecord)
    (c : String) (hn : NodupIds db) (hr : r ∈ db)
    (hp : r.video_status = VideoStatus.notDownloaded ∨
      r.video_status = VideoStatus.updated)
    (ht : transfer r.video_id = TransferResult.failDuringTransfer)
    (hc : fsFind fs r.video_id = some c) :
    fsFind (mirror_ftp_directory deleteOk transfer db fs).fs r.video_id =
      some "" ∧
    dbFind (mirror_ftp_directory deleteOk transfer db fs).db r.video_id =
      some r ∧
    (c ≠ "" → fsFind (mirror_ftp_directory deleteOk transfer db fs).fs
      r.video_id ≠ some c) := by
  have hf : dbFind db r.video_id = some r := dbFind_of_mem_nodup hn hr
  have hpend : isPending r = true := by
    rw [isPending_iff]
    rcases hp with h | h
    · exact Or.inl h
    · exact Or.inr (Or.inr h)
  have hrow : r ∈ sortById (db.filter isPending) :=
    mirrorRows_mem.mpr ⟨hr, hpend⟩
  have hdcond : ∀ row ∈ sortById (db.filter isPending),
      row.video_status = VideoStatus.deleted → deleteOk row.video_id = true →
        row.video_id ≠ r.video_id := by
    intro row hrowm hdel _ he
    have hm := (mirrorRows_mem.mp hrowm).1
    rw [unique_of_find hn hf hm he] at hdel
    rcases hp with h | h <;> rw [h] at hdel <;> cases hdel
  have hd := deletePhase_find deleteOk (sortById (db.filter isPending)) db fs
    hdcond
  have hmain := transferPhase_find_row transfer (sortById (db.filter isPending))
    (deletePhase deleteOk (sortById (db.filter isPending)) db fs).db
    (deletePhase deleteOk (sortById (db.filter isPending)) db fs).fs
    (mirrorRows_nodup hn) hrow hp
  simp only [ht] at hmain
  refine ⟨?_, ?_, ?_⟩
  · rw [mirror_fs_eq, hmain.2]
  · rw [mirror_db_eq, hmain.1, hd.1, hf]
  · intro hne hcontra
    rw [mirror_fs_eq, hmain.2] at hcontra
    exact hne (((Option.some.injEq _ _).mp hcontra).symm)

/-- Witness for claim C10: the updated file "u" with previous local content
"old" is truncated to empty by the failed update, while its record keeps
status `UPDATED`. -/
theorem failed_transfer_leaves_truncated_file_witness :
    fsFind (mirror_ftp_directory (fun _ => true)
        (fun _ => TransferResult.failDuringTransfer)
        [⟨"u", VideoStatus.updated, 9⟩] [("u", "old")]).fs "u" = some "" ∧
    dbFind (mirror_ftp_directory (fun _ => true)
        (fun _ => TransferResult.failDuringTransfer)
        [⟨"u", VideoStatus.updated, 9⟩] [("u", "old")]).db "u" =
      some ⟨"u", VideoStatus.updated, 9⟩ ∧
    (("old" : String) ≠ "" → fsFind (mirror_ftp_directory (fun _ => true)
        (fun _ => TransferResult.failDuringTransfer)
        [⟨"u", VideoStatus.updated, 9⟩] [("u", "old")]).fs "u" ≠ some "old") :=
  failed_transfer_leaves_truncated_file (fun _ => true)
    (fun _ => TransferResult.failDuringTransfer)
    [⟨"u", VideoStatus.updated, 9⟩] [("u", "old")]
    ⟨"u", VideoStatus.updated, 9⟩ "old" (by decide) (by decide)
    (Or.inr rfl) rfl (by decide)
